import Mathlib

/-!
Verification of the legalinsight_rag retrieval-augmented pipeline.

The development shallowly embeds the program's core functions over
`List Char` (Python strings), `Option`/`Except` (fallible values) and
explicit traces (observable side effects):

* `clean_text`, from `src/ingestion/ingest_docs.py`: three sequential
  `re.sub` passes (detached-diacritic repair, hyphen-linebreak repair,
  whitespace collapse) followed by `str.strip`.
* `split_text`, from the same file: the chunking algorithm itself lives in
  the external `RecursiveCharacterTextSplitter` library and is only
  configured there (`chunk_size=1000`, `chunk_overlap=200`), so the window
  algorithm is modelled from the spec.
* `query_vector_db`, from `src/retrieval/search.py`.
* `get_llm`, `format_docs`, `run_rag_pipeline`, from `src/llm/rag_engine.py`.
* `run_ingestion_pipeline`, from `src/ingestion/ingest_docs.py`, as the
  sequence of index-directory states an observer can see.
-/

set_option linter.constructorNameAsVariable false

namespace LegalInsight

/-- The whitespace class used by the program's text, the ASCII fragment of
Python's regex class `\s` (which `str.strip` also strips): space, tab,
newline, carriage return, vertical tab, form feed. -/
def isPySpace (c : Char) : Bool :=
  c = ' ' || c = '\t' || c = '\n' || c = '\r' || c = '\x0b' || c = '\x0c'

/-- One pass of `re.sub(mark ++ "\s?" ++ letter, repl, s)` from `clean_text`
step 1: scan left to right; at an occurrence of `mark` followed by at most
one whitespace character and then `letter`, emit `repl` and continue after
the match (`\s?` is greedy, so the one-whitespace form is preferred);
otherwise advance one character. -/
def subMark (mark letter repl : Char) : List Char → List Char
  | [] => []
  | [c] => [c]
  | [c, d] =>
    if c = mark ∧ d = letter then [repl]
    else c :: subMark mark letter repl [d]
  | c :: d :: e :: rest3 =>
    if c = mark then
      if isPySpace d ∧ e = letter then repl :: subMark mark letter repl rest3
      else if d = letter then repl :: subMark mark letter repl (e :: rest3)
      else c :: subMark mark letter repl (d :: e :: rest3)
    else c :: subMark mark letter repl (d :: e :: rest3)

/-- The `replacements` dict of `clean_text`, in insertion order:
(mark, letter, replacement) for each pattern `mark\s?letter`. -/
def accentRules : List (Char × Char × Char) :=
  [('´', 'a', 'á'), ('´', 'e', 'é'), ('´', 'i', 'í'), ('´', 'o', 'ó'), ('´', 'u', 'ú'),
   ('´', 'A', 'Á'), ('´', 'E', 'É'), ('´', 'I', 'Í'), ('´', 'O', 'Ó'), ('´', 'U', 'Ú'),
   ('~', 'n', 'ñ'), ('~', 'N', 'Ñ'), ('¨', 'u', 'ü'), ('¨', 'U', 'Ü')]

/-- The `for pattern, replacement in replacements.items()` loop of
`clean_text` step 1. -/
def applyAccentRules (s : List Char) : List Char :=
  accentRules.foldl (fun acc r => subMark r.1 r.2.1 r.2.2 acc) s

/-- Helper for the greedy match of `-\s*\n`: the length of the longest
all-whitespace prefix of the list that ends in a newline (`i` characters
scanned so far, `best` the best match length found so far). -/
def nlSpan : List Char → Nat → Option Nat → Option Nat
  | [], _, best => best
  | c :: cs, i, best =>
    if isPySpace c then nlSpan cs (i + 1) (if c = '\n' then some (i + 1) else best)
    else best

/-- One pass of `re.sub(r"-\s*\n", "", s)` from `clean_text` step 2, with
explicit fuel (one unit per scanned position, so `s.length` always
suffices): at a hyphen followed by whitespace ending in a newline, delete
the whole match and continue after it. -/
def subHyphenAux : Nat → List Char → List Char
  | 0, s => s
  | _ + 1, [] => []
  | fuel + 1, c :: rest =>
    if c = '-' then
      match nlSpan rest 0 none with
      | some n => subHyphenAux fuel (rest.drop n)
      | none => c :: subHyphenAux fuel rest
    else c :: subHyphenAux fuel rest

/-- `re.sub(r"-\s*\n", "", s)`, `clean_text` step 2. -/
def subHyphen (s : List Char) : List Char := subHyphenAux s.length s

/-- `re.sub(r"\s+", " ", s)`, `clean_text` step 3: every maximal whitespace
run becomes a single space (emitted at the end of the run). -/
def collapseWs : List Char → List Char
  | [] => []
  | c :: rest =>
    if isPySpace c then
      match rest with
      | [] => [' ']
      | d :: _ => if isPySpace d then collapseWs rest else ' ' :: collapseWs rest
    else c :: collapseWs rest

/-- `str.strip()`: drop whitespace from both ends. -/
def stripWs (s : List Char) : List Char :=
  ((s.dropWhile isPySpace).reverse.dropWhile isPySpace).reverse

/-- `clean_text` from `src/ingestion/ingest_docs.py`: accent repair, then
hyphen-linebreak repair, then whitespace collapse and strip. -/
def clean_text (s : List Char) : List Char :=
  stripWs (collapseWs (subHyphen (applyAccentRules s)))

/-- The Python calling convention of `clean_text`: the function has no
`None` guard, and `re.sub` raises `TypeError` when handed `None` instead of
a string, so a null argument raises instead of returning a value. -/
def clean_text_py : Option (List Char) → Except (List Char) (List Char)
  | none => Except.error "TypeError: expected string or bytes-like object".data
  | some s => Except.ok (clean_text s)

/-- The pairwise half of the whitespace-normal form: two adjacent characters
are never both whitespace. -/
def wsPair (a b : Char) : Prop := ¬(isPySpace a = true ∧ isPySpace b = true)

theorem subMark_of_not_mem (mark letter repl : Char) :
    ∀ s : List Char, mark ∉ s → subMark mark letter repl s = s
  | [], _ => rfl
  | [_], _ => rfl
  | [c, d], h => by
    have hc : c ≠ mark := by
      intro hh; subst hh; exact h (List.mem_cons_self ..)
    simp only [subMark]
    rw [if_neg (fun hcd => hc hcd.1)]
  | c :: d :: e :: rest3, h => by
    have hc : c ≠ mark := by
      intro hh; subst hh; exact h (List.mem_cons_self ..)
    have hrest : mark ∉ d :: e :: rest3 := fun hm => h (List.mem_cons_of_mem _ hm)
    simp only [subMark]
    rw [if_neg hc, subMark_of_not_mem mark letter repl (d :: e :: rest3) hrest]

theorem foldl_subMark_of_not_mem :
    ∀ (rules : List (Char × Char × Char)) (s : List Char),
      (∀ r ∈ rules, r.1 ∉ s) →
      rules.foldl (fun acc r => subMark r.1 r.2.1 r.2.2 acc) s = s
  | [], _, _ => rfl
  | r :: rs, s, h => by
    rw [List.foldl_cons, subMark_of_not_mem _ _ _ _ (h r (List.mem_cons_self ..)),
      foldl_subMark_of_not_mem rs s (fun q hq => h q (List.mem_cons_of_mem _ hq))]

theorem applyAccentRules_of_marksFree (s : List Char)
    (h1 : '´' ∉ s) (h2 : '~' ∉ s) (h3 : '¨' ∉ s) :
    applyAccentRules s = s := by
  apply foldl_subMark_of_not_mem
  intro r hr
  fin_cases hr <;> first | exact h1 | exact h2 | exact h3

theorem nlSpan_of_no_nl : ∀ (s : List Char) (i : Nat) (best : Option Nat),
    '\n' ∉ s → nlSpan s i best = best
  | [], _, _, _ => rfl
  | c :: cs, i, best, h => by
    have hc : c ≠ '\n' := by
      intro hh; subst hh; exact h (List.mem_cons_self ..)
    have hcs : '\n' ∉ cs := fun hm => h (List.mem_cons_of_mem _ hm)
    by_cases hsp : isPySpace c
    · simp only [nlSpan, hsp, if_true, if_neg hc]
      exact nlSpan_of_no_nl cs (i + 1) best hcs
    · simp [nlSpan, hsp]

theorem subHyphenAux_of_no_nl : ∀ (fuel : Nat) (s : List Char),
    '\n' ∉ s → subHyphenAux fuel s = s
  | 0, _, _ => rfl
  | _ + 1, [], _ => rfl
  | fuel + 1, c :: rest, h => by
    have hrest : '\n' ∉ rest := fun hm => h (List.mem_cons_of_mem _ hm)
    by_cases hc : c = '-'
    · simp only [subHyphenAux, hc, if_true]
      rw [nlSpan_of_no_nl rest 0 none hrest]
      exact congrArg (List.cons '-') (subHyphenAux_of_no_nl fuel rest hrest)
    · simp only [subHyphenAux, if_neg hc]
      exact congrArg (List.cons c) (subHyphenAux_of_no_nl fuel rest hrest)

theorem mem_subHyphenAux : ∀ (fuel : Nat) (s : List Char) (a : Char),
    a ∈ subHyphenAux fuel s → a ∈ s
  | 0, _, _, h => h
  | _ + 1, [], _, h => h
  | fuel + 1, c :: rest, a, h => by
    by_cases hc : c = '-'
    · simp only [subHyphenAux, hc, if_true] at h
      cases hn : nlSpan rest 0 none with
      | some n =>
        rw [hn] at h
        exact List.mem_cons_of_mem _ (List.mem_of_mem_drop (mem_subHyphenAux fuel _ a h))
      | none =>
        rw [hn] at h
        rcases List.mem_cons.1 h with rfl | h2
        · subst hc; exact List.mem_cons_self ..
        · exact List.mem_cons_of_mem _ (mem_subHyphenAux fuel rest a h2)
    · simp only [subHyphenAux, if_neg hc] at h
      rcases List.mem_cons.1 h with rfl | h2
      · exact List.mem_cons_self ..
      · exact List.mem_cons_of_mem _ (mem_subHyphenAux fuel rest a h2)

theorem collapseWs_singleton (c : Char) :
    collapseWs [c] = if isPySpace c then [' '] else [c] := by
  by_cases h : isPySpace c <;> simp [collapseWs, h]

theorem collapseWs_cons₂ (c d : Char) (rest : List Char) :
    collapseWs (c :: d :: rest) =
      if isPySpace c then
        (if isPySpace d then collapseWs (d :: rest) else ' ' :: collapseWs (d :: rest))
      else c :: collapseWs (d :: rest) := by
  rw [collapseWs]

theorem head?_collapseWs : ∀ s : List Char,
    (collapseWs s).head? = s.head?.map (fun c => if isPySpace c then ' ' else c)
  | [] => rfl
  | [c] => by by_cases h : isPySpace c <;> simp [collapseWs_singleton, h]
  | c :: d :: rest => by
    by_cases hc : isPySpace c
    · by_cases hd : isPySpace d
      · have := head?_collapseWs (d :: rest)
        rw [collapseWs_cons₂, if_pos hc, if_pos hd, this]
        simp [hd, hc]
      · rw [collapseWs_cons₂, if_pos hc, if_neg hd]
        simp [hc]
    · rw [collapseWs_cons₂, if_neg hc]
      simp [hc]

theorem mem_collapseWs : ∀ (s : List Char) (a : Char),
    a ∈ collapseWs s → (a ∈ s ∧ isPySpace a = false) ∨ a = ' '
  | [], _, h => absurd h (List.not_mem_nil _)
  | [c], a, h => by
    rw [collapseWs_singleton] at h
    by_cases hc : isPySpace c
    · rw [if_pos hc] at h
      simp only [List.mem_singleton] at h
      exact Or.inr h
    · rw [if_neg hc] at h
      simp only [List.mem_singleton] at h
      subst h
      exact Or.inl ⟨List.mem_cons_self .., by simpa using hc⟩
  | c :: d :: rest, a, h => by
    rw [collapseWs_cons₂] at h
    by_cases hc : isPySpace c
    · by_cases hd : isPySpace d
      · rw [if_pos hc, if_pos hd] at h
        rcases mem_collapseWs (d :: rest) a h with ⟨h1, h2⟩ | h1
        · exact Or.inl ⟨List.mem_cons_of_mem _ h1, h2⟩
        · exact Or.inr h1
      · rw [if_pos hc, if_neg hd] at h
        rcases List.mem_cons.1 h with rfl | h2
        · exact Or.inr rfl
        · rcases mem_collapseWs (d :: rest) a h2 with ⟨h1, h3⟩ | h1
          · exact Or.inl ⟨List.mem_cons_of_mem _ h1, h3⟩
          · exact Or.inr h1
    · rw [if_neg hc] at h
      rcases List.mem_cons.1 h with rfl | h2
      · exact Or.inl ⟨List.mem_cons_self .., by simpa using hc⟩
      · rcases mem_collapseWs (d :: rest) a h2 with ⟨h1, h3⟩ | h1
        · exact Or.inl ⟨List.mem_cons_of_mem _ h1, h3⟩
        · exact Or.inr h1

theorem wsFlat_collapseWs (s : List Char) :
    ∀ c ∈ collapseWs s, isPySpace c = true → c = ' ' := by
  intro c hc hws
  rcases mem_collapseWs s c hc with ⟨_, hf⟩ | rfl
  · rw [hf] at hws; cases hws
  · rfl

theorem wsSep_collapseWs : ∀ s : List Char, List.Chain' wsPair (collapseWs s)
  | [] => List.chain'_nil
  | [c] => by
    by_cases hc : isPySpace c <;> rw [collapseWs_singleton] <;>
      simp only [hc, if_true, if_false] <;> exact List.chain'_singleton _
  | c :: d :: rest => by
    have ih := wsSep_collapseWs (d :: rest)
    rw [collapseWs_cons₂]
    by_cases hc : isPySpace c
    · by_cases hd : isPySpace d
      · rw [if_pos hc, if_pos hd]; exact ih
      · rw [if_pos hc, if_neg hd]
        refine List.chain'_cons'.2 ⟨?_, ih⟩
        intro y hy
        rw [head?_collapseWs (d :: rest)] at hy
        simp only [List.head?_cons, Option.map_some', if_neg hd, Option.mem_def,
          Option.some.injEq] at hy
        subst hy
        intro hpair
        rw [show isPySpace d = false from by simpa using hd] at hpair
        exact Bool.noConfusion hpair.2
    · rw [if_neg hc]
      refine List.chain'_cons'.2 ⟨?_, ih⟩
      intro y _
      exact fun hpair => hc (by rw [hpair.1])

theorem mem_of_mem_dropWhile {p : Char → Bool} {a : Char} :
    ∀ l : List Char, a ∈ l.dropWhile p → a ∈ l
  | [], h => h
  | c :: t, h => by
    by_cases hp : p c
    · rw [List.dropWhile_cons_of_pos hp] at h
      exact List.mem_cons_of_mem _ (mem_of_mem_dropWhile t h)
    · rwa [List.dropWhile_cons_of_neg hp] at h

theorem mem_stripWs (s : List Char) (a : Char) (h : a ∈ stripWs s) : a ∈ s := by
  unfold stripWs at h
  rw [List.mem_reverse] at h
  have h2 := mem_of_mem_dropWhile _ h
  rw [List.mem_reverse] at h2
  exact mem_of_mem_dropWhile _ h2

theorem chain'_dropWhile {R : Char → Char → Prop} {p : Char → Bool} :
    ∀ l : List Char, List.Chain' R l → List.Chain' R (l.dropWhile p)
  | [], h => h
  | c :: t, h => by
    by_cases hp : p c
    · rw [List.dropWhile_cons_of_pos hp]
      exact chain'_dropWhile t h.tail
    · rwa [List.dropWhile_cons_of_neg hp]

theorem chain'_of_append_left {α : Type} {R : α → α → Prop} {l₁ l₂ : List α}
    (h : List.Chain' R (l₁ ++ l₂)) : List.Chain' R l₁ :=
  (List.chain'_append.1 h).1

/-- Right-stripping a list leaves a prefix of it: the list splits as the
stripped part followed by its trailing whitespace. -/
theorem stripR_decomp (w : List Char) :
    w = (w.reverse.dropWhile isPySpace).reverse ++ (w.reverse.takeWhile isPySpace).reverse := by
  conv_lhs => rw [← w.reverse_reverse,
    ← List.takeWhile_append_dropWhile (p := isPySpace) (l := w.reverse)]
  rw [List.reverse_append]

theorem head?_dropWhile_false (p : Char → Bool) (l : List Char) (a : Char)
    (h : (l.dropWhile p).head? = some a) : p a = false := by
  have hm := List.head?_dropWhile_not p l
  rw [h] at hm
  exact hm

theorem head?_stripWs (s : List Char) (a : Char)
    (h : (stripWs s).head? = some a) : isPySpace a = false := by
  cases hv : stripWs s with
  | nil => rw [hv] at h; exact Option.noConfusion h
  | cons b vt =>
    rw [hv, List.head?_cons, Option.some.injEq] at h
    subst h
    apply head?_dropWhile_false isPySpace s
    rw [stripR_decomp (s.dropWhile isPySpace)]
    unfold stripWs at hv
    rw [hv]
    rfl

theorem getLast?_stripWs (s : List Char) (a : Char)
    (h : (stripWs s).getLast? = some a) : isPySpace a = false := by
  have he : (stripWs s).getLast? = ((s.dropWhile isPySpace).reverse.dropWhile isPySpace).head? := by
    unfold stripWs
    rw [List.getLast?_reverse]
  rw [he] at h
  exact head?_dropWhile_false _ _ _ h

theorem chain'_stripWs {l : List Char} (h : List.Chain' wsPair l) :
    List.Chain' wsPair (stripWs l) := by
  have h1 : List.Chain' wsPair (l.dropWhile isPySpace) := chain'_dropWhile _ h
  rw [stripR_decomp (l.dropWhile isPySpace)] at h1
  exact chain'_of_append_left h1

theorem collapseWs_eq_self : ∀ v : List Char,
    (∀ c ∈ v, isPySpace c = true → c = ' ') → List.Chain' wsPair v → collapseWs v = v
  | [], _, _ => rfl
  | [c], hf, _ => by
    rw [collapseWs_singleton]
    by_cases hc : isPySpace c
    · rw [if_pos hc, hf c (List.mem_cons_self ..) hc]
    · rw [if_neg hc]
  | c :: d :: rest, hf, hsep => by
    have hpair := (List.chain'_cons.1 hsep).1
    have htail := (List.chain'_cons.1 hsep).2
    have hf' : ∀ x ∈ d :: rest, isPySpace x = true → x = ' ' :=
      fun x hx => hf x (List.mem_cons_of_mem _ hx)
    have ih := collapseWs_eq_self (d :: rest) hf' htail
    rw [collapseWs_cons₂]
    by_cases hc : isPySpace c
    · have hd : ¬isPySpace d = true := fun hdd => hpair ⟨hc, hdd⟩
      rw [if_pos hc, if_neg hd, ih, hf c (List.mem_cons_self ..) hc]
    · rw [if_neg hc, ih]

theorem dropWhile_eq_self_of_head (p : Char → Bool) (v : List Char)
    (h : ∀ a, v.head? = some a → p a = false) : v.dropWhile p = v := by
  cases v with
  | nil => rfl
  | cons c t => exact List.dropWhile_cons_of_neg (by simp [h c rfl])

theorem stripWs_eq_self (v : List Char)
    (hh : ∀ a, v.head? = some a → isPySpace a = false)
    (hl : ∀ a, v.getLast? = some a → isPySpace a = false) : stripWs v = v := by
  unfold stripWs
  rw [dropWhile_eq_self_of_head _ v hh,
    dropWhile_eq_self_of_head _ v.reverse (by
      intro a ha
      rw [List.head?_reverse] at ha
      exact hl a ha)]
  exact v.reverse_reverse

/-- The output of `clean_text` is in whitespace-normal form: every
whitespace character is a plain space, no two adjacent characters are both
whitespace, and the ends are not whitespace. -/
theorem clean_text_invariants (s : List Char) :
    (∀ c ∈ clean_text s, isPySpace c = true → c = ' ')
    ∧ List.Chain' wsPair (clean_text s)
    ∧ (∀ a, (clean_text s).head? = some a → isPySpace a = false)
    ∧ (∀ a, (clean_text s).getLast? = some a → isPySpace a = false) := by
  unfold clean_text
  generalize applyAccentRules s = t
  refine ⟨?_, ?_, ?_, ?_⟩
  · intro c hc hws
    exact wsFlat_collapseWs _ c (mem_stripWs _ _ hc) hws
  · exact chain'_stripWs (wsSep_collapseWs _)
  · exact head?_stripWs _
  · exact getLast?_stripWs _

/-- C1 (amended): `clean_text` is idempotent on every input containing none
of the diacritic-mark characters `´`, `~`, `¨`. (On inputs where such a mark
is separated from its letter by two or more whitespace characters, the
whitespace collapse of the first pass creates a new mark-letter match that
only the second pass merges, so full idempotence fails; see the
counterexample.) -/
theorem clean_text_idempotent_of_markFree (s : List Char)
    (h1 : '´' ∉ s) (h2 : '~' ∉ s) (h3 : '¨' ∉ s) :
    clean_text (clean_text s) = clean_text s := by
  obtain ⟨hf, hsep, hh, hl⟩ := clean_text_invariants s
  have hsub : ∀ a, a ∈ clean_text s → a ∈ s ∨ a = ' ' := by
    intro a ha
    have hcs : clean_text s = stripWs (collapseWs (subHyphen s)) := by
      unfold clean_text
      rw [applyAccentRules_of_marksFree s h1 h2 h3]
    rw [hcs] at ha
    rcases mem_collapseWs _ _ (mem_stripWs _ _ ha) with ⟨h4, _⟩ | h4
    · exact Or.inl (mem_subHyphenAux _ _ _ h4)
    · exact Or.inr h4
  have hm1 : '´' ∉ clean_text s := by
    intro hx
    rcases hsub _ hx with hx2 | hx2
    · exact h1 hx2
    · exact absurd hx2 (by decide)
  have hm2 : '~' ∉ clean_text s := by
    intro hx
    rcases hsub _ hx with hx2 | hx2
    · exact h2 hx2
    · exact absurd hx2 (by decide)
  have hm3 : '¨' ∉ clean_text s := by
    intro hx
    rcases hsub _ hx with hx2 | hx2
    · exact h3 hx2
    · exact absurd hx2 (by decide)
  have hnl : '\n' ∉ clean_text s := by
    intro hx
    exact absurd (hf _ hx (by decide)) (by decide)
  generalize hy : clean_text s = y
  rw [hy] at hf hsep hh hl hm1 hm2 hm3 hnl
  unfold clean_text
  rw [applyAccentRules_of_marksFree y hm1 hm2 hm3,
    subHyphen, subHyphenAux_of_no_nl _ _ hnl,
    collapseWs_eq_self _ hf hsep, stripWs_eq_self _ hh hl]

/-- C1 witness: idempotence at a concrete mark-free input that exercises
hyphen repair, whitespace collapse and stripping. -/
theorem clean_text_idempotent_of_markFree_witness :
    clean_text (clean_text "  El   plan\nde estudios  ".data)
      = clean_text "  El   plan\nde estudios  ".data :=
  clean_text_idempotent_of_markFree _ (by decide) (by decide) (by decide)

/-- C1 counterexample: `clean_text` is not idempotent. On the four-character
input `´`, space, space, `a` the first pass leaves the mark unmerged (the
regex `´\s?a` allows at most one whitespace) but collapses the two spaces to
one, and the second pass then merges the pair to `á`. -/
theorem clean_text_not_idempotent :
    clean_text (clean_text ['´', ' ', ' ', 'a']) ≠ clean_text ['´', ' ', ' ', 'a'] := by
  decide

theorem getD_pairs_of_chain' : ∀ l : List Char, List.Chain' wsPair l →
    ∀ i, i + 1 < l.length →
      ¬(isPySpace (l.getD i ' ') = true ∧ isPySpace (l.getD (i + 1) ' ') = true)
  | [], _, _, hi => by simp at hi
  | [_], _, _, hi => by simp at hi
  | c :: d :: rest, h, 0, _ => by
    simp only [List.getD_cons_zero, List.getD_cons_succ]
    exact (List.chain'_cons.1 h).1
  | c :: d :: rest, h, i + 1, hi => by
    simp only [List.getD_cons_succ]
    exact getD_pairs_of_chain' (d :: rest) (List.chain'_cons.1 h).2 i
      (by simp only [List.length_cons] at hi ⊢; omega)

/-- C9: the output of `clean_text` contains no newline and no tab, every
whitespace character in it is a plain space, no two consecutive characters
are both whitespace, and it neither starts nor ends with whitespace. -/
theorem clean_text_whitespace_normal (s : List Char) :
    '\n' ∉ clean_text s ∧ '\t' ∉ clean_text s
    ∧ (∀ c ∈ clean_text s, isPySpace c = true → c = ' ')
    ∧ (∀ i, i + 1 < (clean_text s).length →
        ¬(isPySpace ((clean_text s).getD i ' ') = true
          ∧ isPySpace ((clean_text s).getD (i + 1) ' ') = true))
    ∧ (∀ a, (clean_text s).head? = some a → isPySpace a = false)
    ∧ (∀ a, (clean_text s).getLast? = some a → isPySpace a = false) := by
  obtain ⟨hf, hsep, hh, hl⟩ := clean_text_invariants s
  generalize hy : clean_text s = y
  rw [hy] at hf hsep hh hl
  refine ⟨?_, ?_, hf, getD_pairs_of_chain' y hsep, hh, hl⟩
  · intro hx
    exact absurd (hf _ hx (by decide)) (by decide)
  · intro hx
    exact absurd (hf _ hx (by decide)) (by decide)

/-- C8 (amended): `clean_text` maps the empty string to the empty string
without error; a null (`None`) argument is not handled — `re.sub` raises
`TypeError` on it, so the call errors instead of returning the empty
string. -/
theorem clean_text_empty_and_none :
    clean_text_py (some []) = Except.ok []
    ∧ clean_text_py none
        = Except.error "TypeError: expected string or bytes-like object".data :=
  ⟨rfl, rfl⟩

/-- C8 counterexample: on a null input `clean_text` does not return the
empty string; the call raises. -/
theorem clean_text_py_none_not_ok : clean_text_py none ≠ Except.ok [] := by
  intro hx
  exact Except.noConfusion hx

/-- Modelled from the spec: the sliding-window chunker configured in
`split_text` (`src/ingestion/ingest_docs.py`) with `chunk_size=1000` and
`chunk_overlap=200`; the window algorithm itself lives in the external
`RecursiveCharacterTextSplitter` library, so it is embedded from the spec's
algorithm: emit a window of 1000 characters and advance by 800 until the
remaining text fits in one window. Fuel decreases once per emitted chunk and
the text shrinks by 800 characters per step, so `text.length` fuel always
suffices. -/
def slideAux : Nat → List Char → List (List Char)
  | 0, text => [text]
  | fuel + 1, text =>
    if text.length ≤ 1000 then [text]
    else text.take 1000 :: slideAux fuel (text.drop 800)

/-- The sliding window over one concatenated text. -/
def slideChunks (text : List Char) : List (List Char) := slideAux text.length text

/-- Modelled from the spec: `split_text` concatenates page text in source
order and applies the sliding window; empty input yields empty output. -/
def split_text (pages : List (List Char)) : List (List Char) :=
  if pages.flatten.isEmpty then [] else slideChunks pages.flatten

theorem slideAux_length : ∀ (fuel : Nat) (text : List Char),
    text.length ≤ fuel + 1000 →
    (slideAux fuel text).length =
      if text.length ≤ 1000 then 1 else (text.length - 200 + 799) / 800
  | 0, text, h => by
    rw [slideAux, if_pos (by omega : text.length ≤ 1000)]
    rfl
  | fuel + 1, text, h => by
    by_cases hle : text.length ≤ 1000
    · rw [slideAux, if_pos hle, if_pos hle]
      rfl
    · have hdrop : (text.drop 800).length ≤ fuel + 1000 := by
        rw [List.length_drop]; omega
      rw [slideAux, if_neg hle, List.length_cons,
        slideAux_length fuel (text.drop 800) hdrop, List.length_drop, if_neg hle]
      by_cases h2 : text.length - 800 ≤ 1000
      · rw [if_pos h2]; omega
      · rw [if_neg h2]; omega

theorem slideAux_getD : ∀ (fuel : Nat) (text : List Char) (i : Nat),
    text.length ≤ fuel + 1000 → i < (slideAux fuel text).length →
    (slideAux fuel text).getD i [] = (text.drop (800 * i)).take 1000
  | 0, text, i, h, hi => by
    rw [slideAux] at hi ⊢
    have hi0 : i = 0 := by simpa using hi
    subst hi0
    rw [List.getD_cons_zero, Nat.mul_zero, List.drop_zero,
      List.take_of_length_le (by omega : text.length ≤ 1000)]
  | fuel + 1, text, i, h, hi => by
    by_cases hle : text.length ≤ 1000
    · rw [slideAux, if_pos hle] at hi ⊢
      have hi0 : i = 0 := by simpa using hi
      subst hi0
      rw [List.getD_cons_zero, Nat.mul_zero, List.drop_zero, List.take_of_length_le hle]
    · rw [slideAux, if_neg hle] at hi ⊢
      cases i with
      | zero => rw [List.getD_cons_zero, Nat.mul_zero, List.drop_zero]
      | succ j =>
        rw [List.getD_cons_succ,
          slideAux_getD fuel (text.drop 800) j
            (by rw [List.length_drop]; omega)
            (by simpa using hi),
          List.drop_drop]
        rw [show 800 + 800 * j = 800 * (j + 1) from by ring]

/-- C2: for pages whose concatenated text has positive length `L`,
`split_text` (chunk_size 1000, overlap 200) produces exactly
`ceil((L - 200) / 800)` chunks — exactly 1 when `L ≤ 1000` — and each
non-final chunk has exactly 1000 characters whose final 200 characters are
the first 200 characters of the next chunk. -/
theorem split_text_chunks (pages : List (List Char)) (h : 0 < pages.flatten.length) :
    ((split_text pages).length =
      if pages.flatten.length ≤ 1000 then 1
      else (pages.flatten.length - 200 + 799) / 800)
    ∧ ∀ i, i + 1 < (split_text pages).length →
        ((split_text pages).getD i []).length = 1000
        ∧ ((split_text pages).getD i []).drop 800
            = ((split_text pages).getD (i + 1) []).take 200 := by
  have hne : pages.flatten.isEmpty = false := by
    cases hf : pages.flatten with
    | nil => rw [hf] at h; simp at h
    | cons c t => rfl
  have hst : split_text pages = slideAux pages.flatten.length pages.flatten := by
    unfold split_text slideChunks
    rw [hne]
    rfl
  have hfuel : pages.flatten.length ≤ pages.flatten.length + 1000 := by omega
  rw [hst]
  refine ⟨slideAux_length _ _ hfuel, ?_⟩
  intro i hi
  have hlen := slideAux_length _ _ hfuel
  rw [hlen] at hi
  by_cases hle : pages.flatten.length ≤ 1000
  · rw [if_pos hle] at hi; omega
  · rw [if_neg hle] at hi
    have hib : 800 * i + 1000 ≤ pages.flatten.length := by omega
    have hcount : ∀ j : Nat, j < (pages.flatten.length - 200 + 799) / 800 →
        j < (slideAux pages.flatten.length pages.flatten).length := by
      intro j hj
      rw [hlen, if_neg hle]
      exact hj
    have hgi := slideAux_getD _ _ i hfuel (hcount i (by omega))
    have hgi1 := slideAux_getD _ _ (i + 1) hfuel (hcount (i + 1) (by omega))
    constructor
    · rw [hgi, List.length_take, List.length_drop]
      omega
    · rw [hgi, hgi1, List.drop_take, List.drop_drop, List.take_take]
      rw [show 800 * i + 800 = 800 * (i + 1) from by ring]
      norm_num

/-- C2 witness: the chunk-count formula and the 200-character overlaps hold
for a single 1801-character page, which splits into three chunks. -/
theorem split_text_chunks_witness :
    ((split_text [List.replicate 1801 'x']).length =
      if ([List.replicate 1801 'x'] : List (List Char)).flatten.length ≤ 1000 then 1
      else (([List.replicate 1801 'x'] : List (List Char)).flatten.length - 200 + 799) / 800)
    ∧ ∀ i, i + 1 < (split_text [List.replicate 1801 'x']).length →
        ((split_text [List.replicate 1801 'x']).getD i []).length = 1000
        ∧ ((split_text [List.replicate 1801 'x']).getD i []).drop 800
            = ((split_text [List.replicate 1801 'x']).getD (i + 1) []).take 200 :=
  split_text_chunks [List.replicate 1801 'x']
    (by rw [List.flatten_cons, List.flatten_nil, List.append_nil, List.length_replicate]; omega)

/-- A retrieved document: LangChain's `Document` restricted to the
`page_content` field, the only field the pipeline reads (metadata is only
printed by the command-line glue). -/
structure Document where
  page_content : List Char
  deriving DecidableEq

/-- Stable insertion into a score-sorted list, ascending by distance. -/
def insertHit (x : Document × Nat) : List (Document × Nat) → List (Document × Nat)
  | [] => [x]
  | y :: l => if x.2 ≤ y.2 then x :: y :: l else y :: insertHit x l

/-- Modelled from the spec: `db.similarity_search_with_score(query, k)` of
the external Chroma index returns the `k` entries whose vectors are nearest
to the query embedding, ascending by L2 distance (all of them when the index
holds fewer than `k`); `dist` is the distance of each stored chunk to the
query embedding. -/
def similarity_search_with_score (dist : Document → Nat) (entries : List Document)
    (k : Nat) : List (Document × Nat) :=
  (((entries.map (fun d => (d, dist d))).foldr insertHit []).take k)

/-- `query_vector_db` from `src/retrieval/search.py`: if no index directory
exists (`index = none`) return `[]` before touching the store; otherwise
load the store and run the similarity search. The function is total: no
path raises. -/
def query_vector_db (dist : List Char → Document → Nat)
    (index : Option (List Document)) (query : List Char) (k : Nat) :
    List (Document × Nat) :=
  match index with
  | none => []
  | some entries => similarity_search_with_score (dist query) entries k

/-- The environment configuration read by `src/llm/rag_engine.py`:
`LLM_PROVIDER` and `OPENAI_API_KEY` (absent variable = `none`). -/
structure Env where
  llm_provider : Option (List Char)
  openai_api_key : Option (List Char)

/-- `LLM_PROVIDER = os.getenv("LLM_PROVIDER", "openai").lower()`, read once
at module import. -/
def LLM_PROVIDER (env : Env) : List Char :=
  (env.llm_provider.getD "openai".data).map Char.toLower

/-- The two generative backends `get_llm` can construct. -/
inductive LLM where
  | chatOpenAI (model : List Char)
  | chatOllama (model : List Char)
  deriving DecidableEq

/-- `get_llm` from `src/llm/rag_engine.py`: the openai provider requires a
non-empty `OPENAI_API_KEY` (`if not api_key: raise ValueError`), the ollama
provider needs no credential, and any other provider name raises. -/
def get_llm (env : Env) : Except (List Char) LLM :=
  if LLM_PROVIDER env = "openai".data then
    if (env.openai_api_key.getD []).isEmpty then
      Except.error "OPENAI_API_KEY missing.".data
    else Except.ok (LLM.chatOpenAI "gpt-3.5-turbo".data)
  else if LLM_PROVIDER env = "ollama".data then
    Except.ok (LLM.chatOllama "llama3".data)
  else Except.error ("Unknown LLM_PROVIDER: ".data ++ LLM_PROVIDER env)

/-- Module import of `rag_engine.py` (`load_dotenv`, the `LLM_PROVIDER`
read): it performs no credential validation and cannot fail, whatever the
environment. -/
def moduleInit (env : Env) : Except (List Char) (List Char) :=
  Except.ok (LLM_PROVIDER env)

/-- `format_docs`: `"\n\n".join(doc.page_content for doc, score in hits)`. -/
def format_docs (docs_with_scores : List (Document × Nat)) : List Char :=
  List.intercalate "\n\n".data (docs_with_scores.map (fun p => p.1.page_content))

/-- The fixed part of the prompt template before `\x7bcontext\x7d`. -/
def templatePre : List Char :=
  "\n    Eres un asistente experto. Usa EXCLUSIVAMENTE el siguiente contexto para responder la pregunta.\n    \n    Si el contexto no tiene la respuesta, di \"No encuentro esa información\".\n    \n    CONTEXTO:\n    ".data

/-- The fixed part of the prompt template between the two placeholders. -/
def templateMid : List Char := "\n    \n    PREGUNTA:\n    ".data

/-- The fixed part of the prompt template after `\x7bquestion\x7d`. -/
def templatePost : List Char := "\n    ".data

/-- The rendered prompt: `ChatPromptTemplate.from_template(template)` with
the `context` and `question` values substituted for the placeholders. -/
def renderPrompt (ctx q : List Char) : List Char :=
  templatePre ++ ctx ++ templateMid ++ q ++ templatePost

/-- The sentinel answer returned when retrieval finds nothing. -/
def sentinel : List Char :=
  "No tengo información suficiente en los documentos.".data

instance {e a : Type} [DecidableEq e] [DecidableEq a] : DecidableEq (Except e a) := fun x y =>
  match x, y with
  | .error e1, .error e2 =>
    if h : e1 = e2 then .isTrue (by rw [h]) else .isFalse (fun hh => h (Except.error.inj hh))
  | .ok a1, .ok a2 =>
    if h : a1 = a2 then .isTrue (by rw [h]) else .isFalse (fun hh => h (Except.ok.inj hh))
  | .error _, .ok _ => .isFalse (fun hh => Except.noConfusion hh)
  | .ok _, .error _ => .isFalse (fun hh => Except.noConfusion hh)

/-- The observable outcome of one `run_rag_pipeline` call: the returned or
raised value, the text bound to `context` in the invoked chain (if the
chain is invoked), and whether `get_llm` was reached at all. -/
structure RagTrace where
  result : Except (List Char) (List Char)
  context : Option (List Char)
  llm_used : Bool
  deriving DecidableEq

/-- `run_rag_pipeline` from `src/llm/rag_engine.py`: retrieve with `k=5`;
on empty hits return the sentinel without touching `get_llm`; otherwise
build the context, construct the LLM (which may raise `ValueError` from
`get_llm`) and invoke the chain on the rendered prompt, returning its
output verbatim. `invoke` is the opaque generative backend. -/
def run_rag_pipeline (env : Env) (dist : List Char → Document → Nat)
    (index : Option (List Document)) (invoke : LLM → List Char → List Char)
    (question : List Char) : RagTrace :=
  let retrieved_hits := query_vector_db dist index question 5
  if retrieved_hits.isEmpty then
    { result := Except.ok sentinel, context := none, llm_used := false }
  else
    let context_text := format_docs retrieved_hits
    match get_llm env with
    | Except.error e => { result := Except.error e, context := none, llm_used := true }
    | Except.ok llm =>
        { result := Except.ok (invoke llm (renderPrompt context_text question)),
          context := some context_text, llm_used := true }

theorem run_rag_pipeline_eq (env : Env) (dist : List Char → Document → Nat)
    (index : Option (List Document)) (invoke : LLM → List Char → List Char)
    (question : List Char) :
    run_rag_pipeline env dist index invoke question =
      if (query_vector_db dist index question 5).isEmpty then
        { result := Except.ok sentinel, context := none, llm_used := false }
      else
        match get_llm env with
        | Except.error e => { result := Except.error e, context := none, llm_used := true }
        | Except.ok llm =>
            { result := Except.ok (invoke llm (renderPrompt
                (format_docs (query_vector_db dist index question 5)) question)),
              context := some (format_docs (query_vector_db dist index question 5)),
              llm_used := true } := rfl

/-- C5: whatever the question and `k`, an absent index (no directory at
`DB_PATH`) or an empty index yields the empty hit list, and no exception:
`query_vector_db` is total. -/
theorem query_vector_db_absent_or_empty (dist : List Char → Document → Nat)
    (index : Option (List Document)) (q : List Char) (k : Nat)
    (h : index = none ∨ index = some []) :
    query_vector_db dist index q k = [] := by
  rcases h with rfl | rfl
  · rfl
  · simp [query_vector_db, similarity_search_with_score]

/-- C5 witness: the absent-index path at a concrete question and `k`. -/
theorem query_vector_db_absent_or_empty_witness :
    query_vector_db (fun _ _ => 0) none "Plan de estudios".data 3 = [] :=
  query_vector_db_absent_or_empty _ _ _ _ (Or.inl rfl)

/-- C4: when retrieval returns no hits, `run_rag_pipeline` returns exactly
the sentinel string, binds no context, and never reaches `get_llm` — the
generative backend is neither constructed nor invoked. -/
theorem run_rag_pipeline_empty_hits (env : Env) (dist : List Char → Document → Nat)
    (index : Option (List Document)) (invoke : LLM → List Char → List Char)
    (question : List Char)
    (h : query_vector_db dist index question 5 = []) :
    run_rag_pipeline env dist index invoke question
      = { result := Except.ok sentinel, context := none, llm_used := false } := by
  have hE : (query_vector_db dist index question 5).isEmpty = true := by
    rw [h]; rfl
  rw [run_rag_pipeline_eq, hE, if_pos rfl]

/-- C4 witness: a concrete run with an absent index. -/
theorem run_rag_pipeline_empty_hits_witness :
    run_rag_pipeline { llm_provider := none, openai_api_key := none }
        (fun _ _ => 0) none (fun _ _ => []) "pregunta".data
      = { result := Except.ok sentinel, context := none, llm_used := false } :=
  run_rag_pipeline_empty_hits _ _ _ _ _ rfl

/-- C6: with non-empty hits, whenever the chain is invoked the text bound
to `context` is exactly the hit passages in ranking order joined by blank
lines — no deduplication, no truncation; and it is invoked whenever
`get_llm` succeeds. -/
theorem run_rag_pipeline_context_binding (env : Env) (dist : List Char → Document → Nat)
    (index : Option (List Document)) (invoke : LLM → List Char → List Char)
    (question : List Char)
    (h : query_vector_db dist index question 5 ≠ []) :
    (∀ ctx, (run_rag_pipeline env dist index invoke question).context = some ctx →
        ctx = List.intercalate "\n\n".data
          ((query_vector_db dist index question 5).map (fun p => p.1.page_content)))
    ∧ ((∃ l, get_llm env = Except.ok l) →
        (run_rag_pipeline env dist index invoke question).context
          = some (List.intercalate "\n\n".data
              ((query_vector_db dist index question 5).map (fun p => p.1.page_content)))) := by
  have hE : (query_vector_db dist index question 5).isEmpty = false :=
    List.isEmpty_eq_false.2 h
  rw [run_rag_pipeline_eq, hE, if_neg Bool.false_ne_true]
  constructor
  · intro ctx hctx
    cases hg : get_llm env with
    | error e =>
      rw [hg] at hctx
      exact Option.noConfusion hctx
    | ok l =>
      rw [hg] at hctx
      have h2 : some (format_docs (query_vector_db dist index question 5)) = some ctx := hctx
      exact (Option.some.inj h2).symm
  · rintro ⟨l, hg⟩
    rw [hg]
    rfl

/-- C6 witness: a one-document index under the ollama provider; the bound
context is the single passage. -/
theorem run_rag_pipeline_context_binding_witness :
    (∀ ctx, (run_rag_pipeline { llm_provider := some "ollama".data, openai_api_key := none }
        (fun _ _ => 0) (some [{ page_content := "Plan de Estudios".data }])
        (fun _ _ => []) "pregunta".data).context = some ctx →
        ctx = List.intercalate "\n\n".data
          ((query_vector_db (fun _ _ => 0)
              (some [{ page_content := "Plan de Estudios".data }]) "pregunta".data 5).map
            (fun p => p.1.page_content)))
    ∧ ((∃ l, get_llm { llm_provider := some "ollama".data, openai_api_key := none }
          = Except.ok l) →
        (run_rag_pipeline { llm_provider := some "ollama".data, openai_api_key := none }
            (fun _ _ => 0) (some [{ page_content := "Plan de Estudios".data }])
            (fun _ _ => []) "pregunta".data).context
          = some (List.intercalate "\n\n".data
              ((query_vector_db (fun _ _ => 0)
                  (some [{ page_content := "Plan de Estudios".data }]) "pregunta".data 5).map
                (fun p => p.1.page_content)))) :=
  run_rag_pipeline_context_binding _ _ _ _ _ (by decide)

/-- C7 (amended): a missing `OPENAI_API_KEY` under the openai provider is
not a startup failure and not prevented before questions are processed:
module import succeeds, a question whose retrieval is empty is answered
with the sentinel and no error, and only a question that reaches generation
raises `ValueError("OPENAI_API_KEY missing.")` — per call, inside
`run_rag_pipeline`. -/
theorem missing_key_is_per_call (env : Env) (dist : List Char → Document → Nat)
    (index : Option (List Document)) (invoke : LLM → List Char → List Char)
    (q : List Char)
    (hp : LLM_PROVIDER env = "openai".data)
    (hk : (env.openai_api_key.getD []).isEmpty = true) :
    moduleInit env = Except.ok "openai".data
    ∧ get_llm env = Except.error "OPENAI_API_KEY missing.".data
    ∧ (query_vector_db dist index q 5 = [] →
        run_rag_pipeline env dist index invoke q
          = { result := Except.ok sentinel, context := none, llm_used := false })
    ∧ (query_vector_db dist index q 5 ≠ [] →
        (run_rag_pipeline env dist index invoke q).result
          = Except.error "OPENAI_API_KEY missing.".data) := by
  have hllm : get_llm env = Except.error "OPENAI_API_KEY missing.".data := by
    unfold get_llm
    rw [if_pos hp, if_pos hk]
  refine ⟨?_, hllm, ?_, ?_⟩
  · unfold moduleInit
    rw [hp]
  · intro h
    have hE : (query_vector_db dist index q 5).isEmpty = true := by rw [h]; rfl
    rw [run_rag_pipeline_eq, hE, if_pos rfl]
  · intro h
    have hE : (query_vector_db dist index q 5).isEmpty = false :=
      List.isEmpty_eq_false.2 h
    rw [run_rag_pipeline_eq, hE, if_neg Bool.false_ne_true, hllm]

/-- C7 witness: concrete runs under an environment with no provider set
(defaulting to openai) and no key. -/
theorem missing_key_is_per_call_witness :
    moduleInit { llm_provider := none, openai_api_key := none }
        = Except.ok "openai".data
    ∧ get_llm { llm_provider := none, openai_api_key := none }
        = Except.error "OPENAI_API_KEY missing.".data
    ∧ (query_vector_db (fun _ _ => 0) (some [{ page_content := "texto".data }])
          "pregunta".data 5 = [] →
        run_rag_pipeline { llm_provider := none, openai_api_key := none }
            (fun _ _ => 0) (some [{ page_content := "texto".data }])
            (fun _ _ => []) "pregunta".data
          = { result := Except.ok sentinel, context := none, llm_used := false })
    ∧ (query_vector_db (fun _ _ => 0) (some [{ page_content := "texto".data }])
          "pregunta".data 5 ≠ [] →
        (run_rag_pipeline { llm_provider := none, openai_api_key := none }
            (fun _ _ => 0) (some [{ page_content := "texto".data }])
            (fun _ _ => []) "pregunta".data).result
          = Except.error "OPENAI_API_KEY missing.".data) :=
  missing_key_is_per_call _ _ _ _ _ (by decide) rfl

/-- C7 counterexample: with the openai provider configured and no key,
startup raises nothing and an empty-retrieval question is processed with no
error at all, while a question reaching generation fails per call — the
missing credential is not a startup-time error. -/
theorem missing_key_not_at_startup :
    moduleInit { llm_provider := none, openai_api_key := none }
        = Except.ok "openai".data
    ∧ run_rag_pipeline { llm_provider := none, openai_api_key := none }
        (fun _ _ => 0) none (fun _ _ => []) "pregunta".data
        = { result := Except.ok sentinel, context := none, llm_used := false }
    ∧ (run_rag_pipeline { llm_provider := none, openai_api_key := none }
        (fun _ _ => 0) (some [{ page_content := "texto".data }])
        (fun _ _ => []) "pregunta".data).result
        = Except.error "OPENAI_API_KEY missing.".data := by
  refine ⟨by decide, by decide, by decide⟩

/-- The states of the index directory (`DB_PATH`) an observer can see:
a complete old index, no index at all, a partially-written index while
`Chroma.from_documents` persists into `DB_PATH` in place, and the complete
new index. -/
inductive DbState where
  | oldIndex
  | noIndex
  | writing
  | newIndex
  deriving DecidableEq

/-- The side-effecting steps of `run_ingestion_pipeline`, in program
order: `shutil.rmtree(DB_PATH)` (only when a directory exists there),
`load_documents()`, and `save_to_chroma(chunks)`. -/
inductive IngestEvent where
  | removeOldIndex
  | loadDocs
  | saveIndex
  deriving DecidableEq

/-- The chunks `run_ingestion_pipeline` computes: each loaded page's text is
cleaned by `clean_text` and the result is chunked by `split_text`. -/
def pipeline_chunks (docs : List Document) : List (List Char) :=
  split_text (docs.map (fun d => clean_text d.page_content))

/-- The ordered side-effecting steps of one `run_ingestion_pipeline` run:
the old index (if any) is removed first, documents are loaded next, and the
index is written only when documents loaded and produced chunks. -/
def ingestionEvents (oldIndexExists : Bool) (docs : List Document) : List IngestEvent :=
  (if oldIndexExists then [IngestEvent.removeOldIndex] else [])
    ++ [IngestEvent.loadDocs]
    ++ (if docs.isEmpty then []
        else if (pipeline_chunks docs).isEmpty then []
        else [IngestEvent.saveIndex])

/-- The successive states of the index directory an observer can see during
one `run_ingestion_pipeline` run (successful-write path): the initial
state; then, if an index existed, the absent state right after
`shutil.rmtree` — document loading and splitting happen while the directory
is absent; then, when there is something to write, the in-place
`Chroma.from_documents` write and the final complete index. -/
def ingestionStates (oldIndexExists : Bool) (docs : List Document) : List DbState :=
  (if oldIndexExists then [DbState.oldIndex, DbState.noIndex] else [DbState.noIndex])
    ++ (if docs.isEmpty then []
        else if (pipeline_chunks docs).isEmpty then []
        else [DbState.writing, DbState.newIndex])

/-- The state of the index directory when `run_ingestion_pipeline` returns:
`noIndex` when no documents loaded or no chunks were produced (the function
returns early, after the removal already happened), `newIndex` otherwise. -/
def finalDbState (oldIndexExists : Bool) (docs : List Document) : DbState :=
  if docs.isEmpty then DbState.noIndex
  else if (pipeline_chunks docs).isEmpty then DbState.noIndex
  else DbState.newIndex

/-- C10: whenever `run_ingestion_pipeline` starts with an index present, its
first two steps are removing that index and only then loading documents;
consequently, when zero documents load, the run ends with no index on disk
at all — the previous index is destroyed, not preserved. -/
theorem ingestion_deletes_old_index_first (docs : List Document) :
    (ingestionEvents true docs).take 2
      = [IngestEvent.removeOldIndex, IngestEvent.loadDocs]
    ∧ (docs = [] → finalDbState true docs = DbState.noIndex) := by
  constructor
  · rfl
  · intro h
    subst h
    rfl

/-- C10 witness: the event order and the empty-load outcome at concrete
inputs. -/
theorem ingestion_deletes_old_index_first_witness :
    ((ingestionEvents true ([] : List Document)).take 2
      = [IngestEvent.removeOldIndex, IngestEvent.loadDocs]
    ∧ (([] : List Document) = [] → finalDbState true [] = DbState.noIndex)) :=
  ingestion_deletes_old_index_first []

/-- C3 (amended): the index rebuild is not atomic. When an index exists and
the loaded documents produce chunks, an observer of `DB_PATH` sees, in
order: the complete old index, then no index at all (while documents load),
then a partially-written index, and only at the end the complete new
index — never an old-to-new atomic flip. -/
theorem ingestion_rebuild_not_atomic (docs : List Document)
    (hd : docs ≠ []) (hc : pipeline_chunks docs ≠ []) :
    ingestionStates true docs
      = [DbState.oldIndex, DbState.noIndex, DbState.writing, DbState.newIndex] := by
  unfold ingestionStates
  rw [if_pos rfl, List.isEmpty_eq_false.2 hd, if_neg Bool.false_ne_true,
    List.isEmpty_eq_false.2 hc, if_neg Bool.false_ne_true]
  rfl

/-- C3 witness: the four-state trace at a concrete one-document run. -/
theorem ingestion_rebuild_not_atomic_witness :
    ingestionStates true [{ page_content := "texto".data }]
      = [DbState.oldIndex, DbState.noIndex, DbState.writing, DbState.newIndex] :=
  ingestion_rebuild_not_atomic [{ page_content := "texto".data }] (by decide) (by decide)

/-- C3 counterexample: during a rebuild over an existing index an observer
can see a state — no index at all — that is neither the complete old index
nor the complete new one, so the rebuild is not atomic with respect to
observers of the index path. -/
theorem rebuild_observably_absent :
    DbState.noIndex ∈ ingestionStates true [{ page_content := "texto".data }]
    ∧ DbState.noIndex ≠ DbState.oldIndex
    ∧ DbState.noIndex ≠ DbState.newIndex := by
  decide

end LegalInsight
